import Mathlib

/-!
Verification of the price-ingestion core of the MyFlashLoan repository
(src/main.go), as a shallow embedding in Lean 4.

Modelling conventions:
* Go `*big.Float` values are modelled as exact rationals (`ℚ`); arithmetic
  operations (`Mul`, `Quo`, `Neg`) become the exact rational operations.
* Where rounding matters, `FloatRep p` captures exactly the finite values
  a big.Float with a p-bit mantissa can hold, and `QuoResult` the contract
  of the correctly rounded `big.Float.Quo`: the result is representable,
  and equals the true quotient whenever that quotient is representable.
* `math.Log` is an external floating-point function; it is modelled by an
  arbitrary parameter `mlog : ℚ → ℚ` threaded through the definitions, so
  theorems hold for every possible logarithm implementation.
* `time.Now().Unix()` is modelled by a single parameter `now : ℤ`.
* Go maps `map[string][]*PriceInfo` and `map[string]*BestPriceInfo` are
  modelled as total functions with the Go zero value as default: a missing
  bucket reads as `[]`, a missing best entry reads as `⟨none, none, 0⟩`
  (which is exactly the `&BestPriceInfo{}` the code installs on a miss).
* `big.Int.Exp x y nil` returns `1` whenever `y ≤ 0` (Go library
  semantics); this is captured by `bigIntExp`.
* ABI event decoding (`UnpackIntoInterface`) is external; a handler
  receives `Option Event`, where `none` is a failed decode.
-/

/-- Go struct `PoolConfig` from src/main.go (the fields the pipeline uses). -/
structure PoolConfig where
  address : String
  token0 : String
  token1 : String
  decimals0 : ℤ
  decimals1 : ℤ
  deriving DecidableEq, Repr

/-- Go struct `PriceInfo` from src/main.go. -/
structure PriceInfo where
  dexType : String
  poolAddr : String
  price : ℚ
  logPrice : ℚ
  updatedAt : ℤ
  deriving DecidableEq, Repr

/-- Go struct `BestPriceInfo` from src/main.go: `Forward` and `Reverse` are
nilable pointers, modelled as `Option`. -/
structure BestPriceInfo where
  forward : Option PriceInfo
  reverse : Option PriceInfo
  updatedAt : ℤ
  deriving DecidableEq, Repr

/-- The two global caches of src/main.go (`priceCache`, `bestPriceCache`),
as one state record. -/
structure CacheState where
  priceCache : String → List PriceInfo
  bestPriceCache : String → BestPriceInfo

/-- The initial state: both Go maps empty (every key reads its zero value). -/
def emptyState : CacheState :=
  ⟨fun _ => [], fun _ => ⟨none, none, 0⟩⟩

/-- The pair key `fmt.Sprintf("%s_%s", a, b)`. -/
def pairKey (a b : String) : String := a ++ "_" ++ b

/-- The removal loop of `updatePriceCache` (src/main.go lines 325-330 and
348-353): scan the bucket, delete the first record with the matching
`PoolAddr`, then `break`. -/
def removePool (addr : String) : List PriceInfo → List PriceInfo
  | [] => []
  | info :: rest =>
      if info.poolAddr = addr then rest else info :: removePool addr rest

/-- Function `updatePriceCache` from src/main.go lines 298-376, parametrised by the
float logarithm `mlog` and the clock reading `now`.  It inserts the forward
record into the `token0_token1` bucket and the reverse record (price `1/p`,
log price `-log p`) into the `token1_token0` bucket, each after removing the
pool's previous record, and then updates the best-price entries with the
code's comparison: replace only when the entry is nil or the new log price
is strictly greater. -/
def updatePriceCache (mlog : ℚ → ℚ) (now : ℤ) (pool : PoolConfig)
    (price : ℚ) (dexType : String) (st : CacheState) : CacheState :=
  let forwardPair := pairKey pool.token0 pool.token1
  let reversePair := pairKey pool.token1 pool.token0
  let logPrice := mlog price
  let priceInfo : PriceInfo := ⟨dexType, pool.address, price, logPrice, now⟩
  let pc1 : String → List PriceInfo := fun k =>
    if k = forwardPair then
      removePool pool.address (st.priceCache forwardPair) ++ [priceInfo]
    else st.priceCache k
  let reversePrice := 1 / price
  let reverseLogPrice := -logPrice
  let reversePriceInfo : PriceInfo :=
    ⟨dexType, pool.address, reversePrice, reverseLogPrice, now⟩
  let pc2 : String → List PriceInfo := fun k =>
    if k = reversePair then
      removePool pool.address (pc1 reversePair) ++ [reversePriceInfo]
    else pc1 k
  let bestForward := st.bestPriceCache forwardPair
  let bestForward' : BestPriceInfo :=
    match bestForward.forward with
    | none => ⟨some priceInfo, bestForward.reverse, now⟩
    | some bf =>
        if bf.logPrice < logPrice then
          ⟨some priceInfo, bestForward.reverse, now⟩
        else bestForward
  let bpc1 : String → BestPriceInfo := fun k =>
    if k = forwardPair then bestForward' else st.bestPriceCache k
  let bestReverse := bpc1 reversePair
  let bestReverse' : BestPriceInfo :=
    match bestReverse.reverse with
    | none => ⟨bestReverse.forward, some reversePriceInfo, now⟩
    | some br =>
        if br.logPrice < reverseLogPrice then
          ⟨bestReverse.forward, some reversePriceInfo, now⟩
        else bestReverse
  let bpc2 : String → BestPriceInfo := fun k =>
    if k = reversePair then bestReverse' else bpc1 k
  ⟨pc2, bpc2⟩

/-- The `Swap` event payload decoded in `handleUniswapEvent`. -/
structure SwapEvent where
  amount0 : ℤ
  amount1 : ℤ
  sqrtPriceX96 : ℤ
  liquidity : ℤ
  tick : ℤ
  deriving DecidableEq, Repr

/-- The price computation of `handleUniswapEvent` (src/main.go lines
394-409): `(sqrtPriceX96 / 2^96)^2`, then a sign-branched decimal
adjustment — multiply by `10^(decimals0-decimals1)` when positive, divide by
`10^(decimals1-decimals0)` when negative. -/
def uniswapPrice (pool : PoolConfig) (e : SwapEvent) : ℚ :=
  let sqrtPriceFloat : ℚ := (e.sqrtPriceX96 : ℚ) / ((2 : ℚ) ^ (96 : ℕ))
  let price := sqrtPriceFloat * sqrtPriceFloat
  let decimalsDiff := pool.decimals0 - pool.decimals1
  if 0 < decimalsDiff then price * ((10 : ℚ) ^ decimalsDiff.toNat)
  else if decimalsDiff < 0 then price / ((10 : ℚ) ^ (-decimalsDiff).toNat)
  else price

/-- Function `handleUniswapEvent` (src/main.go lines 378-421): a failed decode
(`none`) is logged and the handler returns, leaving the caches untouched;
otherwise the decoded price is pushed through `updatePriceCache`. -/
def handleUniswapEvent (mlog : ℚ → ℚ) (now : ℤ)
    (decoded : Option SwapEvent) (pool : PoolConfig) (st : CacheState) :
    CacheState :=
  match decoded with
  | none => st
  | some e => updatePriceCache mlog now pool (uniswapPrice pool e) "uniswap" st

/-- The `TokenExchange` event payload decoded in `handleCurveEvent`. -/
structure TokenExchangeEvent where
  buyer : String
  soldID : ℤ
  tokensSold : ℤ
  boughtID : ℤ
  tokensBought : ℤ
  deriving DecidableEq, Repr

/-- The Go library call `new(big.Int).Exp(x, y, nil)`: the result is `1` whenever the
exponent is not positive (the Go standard library defines `x**y` as `1` for
`y <= 0` when the modulus is nil). -/
def bigIntExp (x y : ℤ) : ℤ :=
  x ^ y.toNat

/-- The price computation of `handleCurveEvent` (src/main.go lines
439-448): `tokensSold / tokensBought`, then multiplication by
`bigIntExp 10 (decimals1 - decimals0)` whenever the difference is nonzero —
with no branch on the sign of the exponent. -/
def curvePrice (pool : PoolConfig) (e : TokenExchangeEvent) : ℚ :=
  let price : ℚ := (e.tokensSold : ℚ) / (e.tokensBought : ℚ)
  let decimalsDiff := pool.decimals1 - pool.decimals0
  if decimalsDiff ≠ 0 then price * ((bigIntExp 10 decimalsDiff : ℤ) : ℚ)
  else price

/-- Function `handleCurveEvent` (src/main.go lines 423-461): a failed decode is
logged and dropped, otherwise the price is pushed through
`updatePriceCache`. -/
def handleCurveEvent (mlog : ℚ → ℚ) (now : ℤ)
    (decoded : Option TokenExchangeEvent) (pool : PoolConfig)
    (st : CacheState) : CacheState :=
  match decoded with
  | none => st
  | some e => updatePriceCache mlog now pool (curvePrice pool e) "curve" st

/-- The finite values a Go big.Float with a p-bit mantissa can hold: an
integer mantissa of magnitude below `2 ^ p` scaled by a power of two. -/
def FloatRep (p : ℕ) (x : ℚ) : Prop :=
  ∃ n : ℤ, ∃ s : ℤ, n.natAbs < 2 ^ p ∧ x = (n : ℚ) * (2 : ℚ) ^ s

/-- The contract of `new(big.Float).Quo(x, y)` at result precision p: the
result is a representable value, and it equals the true quotient whenever
that quotient is itself representable at precision p (correct rounding is
the identity on representable values). -/
def QuoResult (p : ℕ) (x y r : ℚ) : Prop :=
  FloatRep p r ∧ (FloatRep p (x / y) → r = x / y)

/-- The statement that no finite binary floating-point value, at any
mantissa precision, multiplies with x to give exactly 1. -/
def noFloatInverse (x : ℚ) : Prop :=
  ∀ p : ℕ, ∀ r : ℚ, FloatRep p r → x * r ≠ 1

/-! ## Helper lemmas -/

-- The last element of a bucket after an append of one record.
theorem getLast?_append_singleton {α : Type} (l : List α) (a : α) :
    (l ++ [a]).getLast? = some a := by
  simp

/-! ## Claims -/

/-- Claim C5: for every ProtocolA event, the decoded forward price equals
the square of the decoded square-root price times `10 ^ (decimals0 -
decimals1)` (integer exponent), the sign-branched adjustment of the code
being exactly this signed power. -/
theorem uniswapPrice_eq_sq_mul_zpow (pool : PoolConfig) (e : SwapEvent) :
    uniswapPrice pool e =
      ((e.sqrtPriceX96 : ℚ) / ((2 : ℚ) ^ (96 : ℕ))) ^ 2 *
        (10 : ℚ) ^ (pool.decimals0 - pool.decimals1) := by
  unfold uniswapPrice
  have h10 : (10 : ℚ) ≠ 0 := by norm_num
  rcases lt_trichotomy (pool.decimals0 - pool.decimals1) 0 with h | h | h
  · rw [if_neg (by omega), if_pos h]
    have hz : (10 : ℚ) ^ (pool.decimals0 - pool.decimals1) =
        ((10 : ℚ) ^ (-(pool.decimals0 - pool.decimals1)).toNat)⁻¹ := by
      rw [← zpow_natCast (10 : ℚ) (-(pool.decimals0 - pool.decimals1)).toNat,
        Int.toNat_of_nonneg (by omega), zpow_neg, inv_inv]
    rw [hz, div_eq_mul_inv]
    ring
  · rw [if_neg (by omega), if_neg (by omega), h, zpow_zero, mul_one]
    ring
  · have hz : (10 : ℚ) ^ (pool.decimals0 - pool.decimals1) =
        (10 : ℚ) ^ (pool.decimals0 - pool.decimals1).toNat := by
      rw [← zpow_natCast (10 : ℚ) (pool.decimals0 - pool.decimals1).toNat,
        Int.toNat_of_nonneg (by omega)]
    rw [if_pos h, hz]
    ring

/-- Claim C8: when decoding fails, both handlers leave the entire cache
state (directional price cache and best-price cache) unchanged and return
normally. -/
theorem handlers_drop_undecodable_without_mutation (mlog : ℚ → ℚ) (now : ℤ)
    (pool : PoolConfig) (st : CacheState) :
    handleUniswapEvent mlog now none pool st = st ∧
    handleCurveEvent mlog now none pool st = st :=
  ⟨rfl, rfl⟩

/-- Claim C10: the ProtocolB decoder output depends only on `tokensSold`,
`tokensBought` and the pool decimals; two events agreeing on those amounts
but differing in `soldID` and `boughtID` decode to the same price. -/
theorem curvePrice_ignores_asset_ids (pool : PoolConfig)
    (e1 e2 : TokenExchangeEvent) (hs : e1.tokensSold = e2.tokensSold)
    (hb : e1.tokensBought = e2.tokensBought) :
    curvePrice pool e1 = curvePrice pool e2 := by
  unfold curvePrice
  rw [hs, hb]

/-- Witness for claim C10: two concrete events with swapped asset indices
(sold 0/bought 1 versus sold 1/bought 0) but equal amounts decode
identically. -/
theorem curvePrice_ignores_asset_ids_witness :
    curvePrice ⟨"0xC", "USDC", "DAI", 6, 18⟩ ⟨"0xB", 0, 100, 1, 200⟩ =
      curvePrice ⟨"0xC", "USDC", "DAI", 6, 18⟩ ⟨"0xB", 1, 100, 0, 200⟩ :=
  curvePrice_ignores_asset_ids ⟨"0xC", "USDC", "DAI", 6, 18⟩
    ⟨"0xB", 0, 100, 1, 200⟩ ⟨"0xB", 1, 100, 0, 200⟩ rfl rfl

/-- The spec scenario for the best-price aggregator: on pair `A_B`, pool
P1 reports price 5, then pool P2 reports price 3, then P1 degrades to
price 1 (with `mlog = id`, so the log prices are 5, 3, 1). -/
def staleBestState : CacheState :=
  updatePriceCache id 3 ⟨"0xP1", "A", "B", 18, 18⟩ 1 "uniswap"
    (updatePriceCache id 2 ⟨"0xP2", "A", "B", 18, 18⟩ 3 "uniswap"
      (updatePriceCache id 1 ⟨"0xP1", "A", "B", 18, 18⟩ 5 "uniswap" emptyState))

/-- Claim C1 (code evaluated at the failing input): after P1 degrades from
log price 5 to log price 1, the code still holds P1's old record (log
price 5) as the best forward price — a record that is no longer even in
the bucket — while the bucket's actual maximum is P2 at log price 3.  The
monotonic replace-only-if-greater rule of `updatePriceCache` violates the
claimed argmax invariant. -/
theorem bestPrice_stale_after_degradation :
    (staleBestState.bestPriceCache (pairKey "A" "B")).forward =
      some ⟨"uniswap", "0xP1", 5, 5, 1⟩ ∧
    staleBestState.priceCache (pairKey "A" "B") =
      [⟨"uniswap", "0xP2", 3, 3, 2⟩, ⟨"uniswap", "0xP1", 1, 1, 3⟩] := by
  decide

/-- Claim C2 (code evaluated at the failing input): for a Curve pool with
`decimals0 = 18, decimals1 = 6` the exponent `decimals1 - decimals0 = -12`
is negative, `bigIntExp` collapses to `1`, and the decoder returns the raw
unadjusted ratio `10^12` where the sign-honoring adjustment would give
`1`. -/
theorem curvePrice_negative_exponent_collapses :
    curvePrice ⟨"0xC", "DAI", "USDC", 18, 6⟩ ⟨"0xB", 0, 10 ^ 18, 1, 10 ^ 6⟩ =
      10 ^ 12 ∧
    bigIntExp 10 (-12) = 1 ∧
    ((10 : ℚ) ^ 18 / (10 : ℚ) ^ 6) * (10 : ℚ) ^ ((6 : ℤ) - 18) = 1 := by
  refine ⟨?_, rfl, by norm_num⟩
  norm_num [curvePrice, bigIntExp]
  rfl

/-- Claim C3 (code evaluated at the failing input): a ProtocolA event with
`sqrtPriceX96 = 0` decodes to the non-positive price `0`, yet the pipeline
inserts it into the directional price cache — there is no positivity or
finiteness guard and no invalid-price error path in `updatePriceCache`. -/
theorem nonpositive_price_inserted_without_guard :
    uniswapPrice ⟨"0xA", "USDC", "WETH", 6, 18⟩ ⟨0, 0, 0, 0, 0⟩ = 0 ∧
    (handleUniswapEvent id 7 (some ⟨0, 0, 0, 0, 0⟩)
        ⟨"0xA", "USDC", "WETH", 6, 18⟩ emptyState).priceCache
      (pairKey "USDC" "WETH") = [⟨"uniswap", "0xA", 0, 0, 7⟩] := by
  have h1 : uniswapPrice ⟨"0xA", "USDC", "WETH", 6, 18⟩ ⟨0, 0, 0, 0, 0⟩ = 0 := by
    norm_num [uniswapPrice]
  refine ⟨h1, ?_⟩
  show (updatePriceCache id 7 ⟨"0xA", "USDC", "WETH", 6, 18⟩
      (uniswapPrice ⟨"0xA", "USDC", "WETH", 6, 18⟩ ⟨0, 0, 0, 0, 0⟩) "uniswap"
      emptyState).priceCache (pairKey "USDC" "WETH") =
    [⟨"uniswap", "0xA", 0, 0, 7⟩]
  rw [h1]
  decide

/-! ## Bucket uniqueness (directional cache) -/

/-- A bucket satisfies the cache invariant when no two of its records
share a pool address. -/
def uniqueAddrs (l : List PriceInfo) : Prop :=
  l.Pairwise (fun a b => a.poolAddr ≠ b.poolAddr)

-- Removing a pool's record yields a sublist of the bucket.
theorem removePool_sublist (addr : String) (l : List PriceInfo) :
    List.Sublist (removePool addr l) l := by
  induction l with
  | nil => simp [removePool]
  | cons x xs ih =>
      unfold removePool
      by_cases hc : x.poolAddr = addr
      · rw [if_pos hc]
        exact List.sublist_cons_self x xs
      · rw [if_neg hc]
        exact ih.cons₂ x

-- The invariant survives removal.
theorem uniqueAddrs_removePool (addr : String) (l : List PriceInfo)
    (h : uniqueAddrs l) : uniqueAddrs (removePool addr l) :=
  h.sublist (removePool_sublist addr l)

-- In a bucket satisfying the invariant, removal of the first matching
-- record leaves no record with that address.
theorem removePool_addr_ne (addr : String) (l : List PriceInfo)
    (h : uniqueAddrs l) : ∀ r ∈ removePool addr l, r.poolAddr ≠ addr := by
  induction l with
  | nil => intro r hr; simp [removePool] at hr
  | cons x xs ih =>
      rw [uniqueAddrs, List.pairwise_cons] at h
      obtain ⟨hx, hxs⟩ := h
      intro r hr
      unfold removePool at hr
      by_cases hc : x.poolAddr = addr
      · rw [if_pos hc] at hr
        intro hra
        exact hx r hr (by rw [hc, hra])
      · rw [if_neg hc] at hr
        rcases List.mem_cons.mp hr with hr | hr
        · rw [hr]; exact hc
        · exact ih hxs r hr

-- Remove-then-append preserves the invariant.
theorem uniqueAddrs_update (l : List PriceInfo) (r : PriceInfo)
    (h : uniqueAddrs l) : uniqueAddrs (removePool r.poolAddr l ++ [r]) := by
  rw [uniqueAddrs, List.pairwise_append]
  refine ⟨uniqueAddrs_removePool _ _ h, List.pairwise_singleton _ _, ?_⟩
  intro a ha b hb
  rw [List.mem_singleton] at hb
  rw [hb]
  exact removePool_addr_ne _ _ h a ha

-- After remove-then-append, the new record is the only one for its pool.
theorem filter_removePool_append (l : List PriceInfo) (r : PriceInfo)
    (h : uniqueAddrs l) :
    (removePool r.poolAddr l ++ [r]).filter
      (fun x => x.poolAddr == r.poolAddr) = [r] := by
  rw [List.filter_append]
  have h1 : (removePool r.poolAddr l).filter
      (fun x => x.poolAddr == r.poolAddr) = [] := by
    rw [List.filter_eq_nil_iff]
    intro a ha
    simpa using removePool_addr_ne r.poolAddr l h a ha
  rw [h1, List.nil_append]
  simp [List.filter]

/-! ## Bucket shape after an update -/

-- The forward bucket after an update: the pool's old record removed, the
-- new forward record appended.
theorem updatePriceCache_bucket_forward (mlog : ℚ → ℚ) (now : ℤ)
    (pool : PoolConfig) (price : ℚ) (dexType : String) (st : CacheState)
    (hk : pairKey pool.token0 pool.token1 ≠ pairKey pool.token1 pool.token0) :
    (updatePriceCache mlog now pool price dexType st).priceCache
        (pairKey pool.token0 pool.token1) =
      removePool pool.address
          (st.priceCache (pairKey pool.token0 pool.token1)) ++
        [⟨dexType, pool.address, price, mlog price, now⟩] := by
  simp only [updatePriceCache]
  rw [if_neg hk]
  simp

-- The reverse bucket after an update: the pool's old record removed, the
-- new reverse record (price 1/p, log price -(log p)) appended.
theorem updatePriceCache_bucket_reverse (mlog : ℚ → ℚ) (now : ℤ)
    (pool : PoolConfig) (price : ℚ) (dexType : String) (st : CacheState)
    (hk : pairKey pool.token0 pool.token1 ≠ pairKey pool.token1 pool.token0) :
    (updatePriceCache mlog now pool price dexType st).priceCache
        (pairKey pool.token1 pool.token0) =
      removePool pool.address
          (st.priceCache (pairKey pool.token1 pool.token0)) ++
        [⟨dexType, pool.address, 1 / price, -(mlog price), now⟩] := by
  simp only [updatePriceCache]
  rw [if_neg (Ne.symm hk)]
  simp

-- Buckets of unrelated pair keys are untouched.
theorem updatePriceCache_bucket_other (mlog : ℚ → ℚ) (now : ℤ)
    (pool : PoolConfig) (price : ℚ) (dexType : String) (st : CacheState)
    (k : String) (h1 : k ≠ pairKey pool.token0 pool.token1)
    (h2 : k ≠ pairKey pool.token1 pool.token0) :
    (updatePriceCache mlog now pool price dexType st).priceCache k =
      st.priceCache k := by
  simp only [updatePriceCache]
  rw [if_neg h2, if_neg h1]

/-- Claim C4: the update removes the pool's prior record before inserting
the new one, so every bucket keeps at most one record per pool address,
and after an update the updating pool's sole record in either directional
bucket carries the latest values. -/
theorem updatePriceCache_unique_per_pool (mlog : ℚ → ℚ) (now : ℤ)
    (pool : PoolConfig) (price : ℚ) (dexType : String) (st : CacheState)
    (h : ∀ k, uniqueAddrs (st.priceCache k))
    (hk : pairKey pool.token0 pool.token1 ≠ pairKey pool.token1 pool.token0) :
    (∀ k, uniqueAddrs
        ((updatePriceCache mlog now pool price dexType st).priceCache k)) ∧
    ((updatePriceCache mlog now pool price dexType st).priceCache
          (pairKey pool.token0 pool.token1)).filter
        (fun r => r.poolAddr == pool.address) =
      [⟨dexType, pool.address, price, mlog price, now⟩] ∧
    ((updatePriceCache mlog now pool price dexType st).priceCache
          (pairKey pool.token1 pool.token0)).filter
        (fun r => r.poolAddr == pool.address) =
      [⟨dexType, pool.address, 1 / price, -(mlog price), now⟩] := by
  have hfwd := updatePriceCache_bucket_forward mlog now pool price dexType st hk
  have hrev := updatePriceCache_bucket_reverse mlog now pool price dexType st hk
  refine ⟨?_, ?_, ?_⟩
  · intro k
    by_cases h1 : k = pairKey pool.token0 pool.token1
    · rw [h1, hfwd]
      exact uniqueAddrs_update _
        ⟨dexType, pool.address, price, mlog price, now⟩ (h _)
    · by_cases h2 : k = pairKey pool.token1 pool.token0
      · rw [h2, hrev]
        exact uniqueAddrs_update _
          ⟨dexType, pool.address, 1 / price, -(mlog price), now⟩ (h _)
      · rw [updatePriceCache_bucket_other mlog now pool price dexType st k h1 h2]
        exact h k
  · rw [hfwd]
    exact filter_removePool_append _
      ⟨dexType, pool.address, price, mlog price, now⟩ (h _)
  · rw [hrev]
    exact filter_removePool_append _
      ⟨dexType, pool.address, 1 / price, -(mlog price), now⟩ (h _)

/-- Witness for claim C4: a concrete update on the empty cache leaves
exactly one record for the pool in the forward bucket, carrying the
latest values, and the bucket satisfies the uniqueness invariant. -/
theorem updatePriceCache_unique_per_pool_witness :
    ((updatePriceCache id 7 ⟨"0xW", "USDC", "WETH", 6, 18⟩ 5 "uniswap"
          emptyState).priceCache (pairKey "USDC" "WETH")).filter
        (fun r => r.poolAddr == "0xW") = [⟨"uniswap", "0xW", 5, 5, 7⟩] ∧
    uniqueAddrs ((updatePriceCache id 7 ⟨"0xW", "USDC", "WETH", 6, 18⟩ 5
        "uniswap" emptyState).priceCache (pairKey "USDC" "WETH")) :=
  ⟨(updatePriceCache_unique_per_pool id 7 ⟨"0xW", "USDC", "WETH", 6, 18⟩ 5
      "uniswap" emptyState (fun _ => List.Pairwise.nil) (by decide)).2.1,
   (updatePriceCache_unique_per_pool id 7 ⟨"0xW", "USDC", "WETH", 6, 18⟩ 5
      "uniswap" emptyState (fun _ => List.Pairwise.nil) (by decide)).1 _⟩

/-- Claim C6: the reverse record written by an update carries exactly the
negation of the forward record's log price (the code computes it with
`Neg`, not by taking a logarithm of `1/p`), for every possible logarithm
function `mlog`. -/
theorem reverse_logPrice_exact_negation (mlog : ℚ → ℚ) (now : ℤ)
    (pool : PoolConfig) (price : ℚ) (dexType : String) (st : CacheState)
    (hk : pairKey pool.token0 pool.token1 ≠ pairKey pool.token1 pool.token0) :
    ((updatePriceCache mlog now pool price dexType st).priceCache
        (pairKey pool.token0 pool.token1)).getLast?.map PriceInfo.logPrice =
      some (mlog price) ∧
    ((updatePriceCache mlog now pool price dexType st).priceCache
        (pairKey pool.token1 pool.token0)).getLast?.map PriceInfo.logPrice =
      some (-(mlog price)) := by
  rw [updatePriceCache_bucket_forward mlog now pool price dexType st hk,
    updatePriceCache_bucket_reverse mlog now pool price dexType st hk,
    getLast?_append_singleton, getLast?_append_singleton]
  exact ⟨rfl, rfl⟩

/-- Witness for claim C6: a concrete update (log price 5 under `mlog = id`)
stores forward log price 5 and reverse log price -5. -/
theorem reverse_logPrice_exact_negation_witness :
    ((updatePriceCache id 7 ⟨"0xW", "USDC", "WETH", 6, 18⟩ 5 "uniswap"
        emptyState).priceCache (pairKey "USDC" "WETH")).getLast?.map
      PriceInfo.logPrice = some 5 ∧
    ((updatePriceCache id 7 ⟨"0xW", "USDC", "WETH", 6, 18⟩ 5 "uniswap"
        emptyState).priceCache (pairKey "WETH" "USDC")).getLast?.map
      PriceInfo.logPrice = some (-5) :=
  reverse_logPrice_exact_negation id 7 ⟨"0xW", "USDC", "WETH", 6, 18⟩ 5
    "uniswap" emptyState (by decide)

-- A ProtocolA price decoded from a nonzero square-root reading is nonzero.
theorem uniswapPrice_ne_zero (pool : PoolConfig) (e : SwapEvent)
    (hs : e.sqrtPriceX96 ≠ 0) : uniswapPrice pool e ≠ 0 := by
  have hc : (e.sqrtPriceX96 : ℚ) ≠ 0 := Int.cast_ne_zero.mpr hs
  have h2 : ((2 : ℚ) ^ (96 : ℕ)) ≠ 0 := by norm_num
  have hq : (e.sqrtPriceX96 : ℚ) / (2 : ℚ) ^ (96 : ℕ) ≠ 0 := div_ne_zero hc h2
  have hten : ∀ n : ℕ, ((10 : ℚ) ^ n) ≠ 0 := fun n =>
    pow_ne_zero n (by norm_num)
  simp only [uniswapPrice]
  split_ifs
  · exact mul_ne_zero (mul_ne_zero hq hq) (hten _)
  · exact div_ne_zero (mul_ne_zero hq hq) (hten _)
  · exact mul_ne_zero hq hq

/-- Claim C7 (counterexample): the Swap event with square-root reading
`3 * 2 ^ 94` on a pool with equal decimals is a valid ProtocolA input
whose forward price is exactly 9/16 (every intermediate value is
representable at the working precisions, so the program also holds 9/16
exactly).  Its reciprocal 16/9 is not a binary float, so the stored
reverse — the rounded quotient of 1 by the price, a finite big.Float
value of some precision — can never multiply with the forward price to
give exactly 1. -/
theorem uniswap_reverse_product_ne_one :
    uniswapPrice ⟨"0xU2", "USDC", "USDT", 6, 6⟩ ⟨0, 0, 3 * 2 ^ 94, 0, 0⟩ =
      9 / 16 ∧
    noFloatInverse
      (uniswapPrice ⟨"0xU2", "USDC", "USDT", 6, 6⟩
        ⟨0, 0, 3 * 2 ^ 94, 0, 0⟩) := by
  have h1 : uniswapPrice ⟨"0xU2", "USDC", "USDT", 6, 6⟩
      ⟨0, 0, 3 * 2 ^ 94, 0, 0⟩ = 9 / 16 := by
    norm_num [uniswapPrice]
  refine ⟨h1, ?_⟩
  rw [h1]
  intro p r hrep heq
  obtain ⟨n, s, hb, hnr⟩ := hrep
  rw [hnr] at heq
  rcases s with u | u
  · rw [Int.ofNat_eq_natCast, zpow_natCast] at heq
    have hq2 : (9 : ℚ) * ((n : ℚ) * 2 ^ u) = 16 := by linarith [heq]
    have h2 : (9 : ℤ) * (n * 2 ^ u) = 16 := by exact_mod_cast hq2
    have h3 : (9 : ℤ) ∣ 16 := ⟨n * 2 ^ u, h2.symm⟩
    norm_num at h3
  · rw [zpow_negSucc] at heq
    have hy : ((2 : ℚ) ^ (u + 1)) ≠ 0 := by positivity
    have hq2 : (9 : ℚ) * (n : ℚ) = 16 * 2 ^ (u + 1) := by
      field_simp at heq
      linarith [heq]
    have h2 : (9 : ℤ) * n = 16 * 2 ^ (u + 1) := by exact_mod_cast hq2
    have h3 : (3 : ℤ) ∣ 16 * 2 ^ (u + 1) := ⟨3 * n, by linarith⟩
    rcases (Int.prime_three.dvd_mul).mp h3 with h4 | h4
    · norm_num at h4
    · have h5 := Int.prime_three.dvd_of_dvd_pow h4
      norm_num at h5

/-- Claim C7 (amended): for a ProtocolA event with a nonzero square-root
price, where the stored reverse is any correctly rounded big.Float
quotient of 1 by the forward price at some working precision p, the
stored forward price times that reverse is exactly 1 whenever the
reciprocal of the forward price is exactly representable at precision p;
without representability the product can differ from 1. -/
theorem uniswap_forward_mul_reverse_eq_one_amended (mlog : ℚ → ℚ) (now : ℤ)
    (pool : PoolConfig) (e : SwapEvent) (st : CacheState) (p : ℕ) (r : ℚ)
    (hs : e.sqrtPriceX96 ≠ 0)
    (hk : pairKey pool.token0 pool.token1 ≠ pairKey pool.token1 pool.token0)
    (hq : QuoResult p 1 (uniswapPrice pool e) r)
    (hrepr : FloatRep p (1 / uniswapPrice pool e)) :
    (((handleUniswapEvent mlog now (some e) pool st).priceCache
          (pairKey pool.token0 pool.token1)).getLast?.map
        PriceInfo.price).getD 0 * r = 1 := by
  have hr : r = 1 / uniswapPrice pool e := hq.2 hrepr
  show (((updatePriceCache mlog now pool (uniswapPrice pool e) "uniswap"
        st).priceCache (pairKey pool.token0 pool.token1)).getLast?.map
      PriceInfo.price).getD 0 * r = 1
  rw [updatePriceCache_bucket_forward mlog now pool (uniswapPrice pool e)
      "uniswap" st hk,
    getLast?_append_singleton]
  show uniswapPrice pool e * r = 1
  rw [hr]
  exact mul_one_div_cancel (uniswapPrice_ne_zero pool e hs)

/-- Witness for the amended claim C7: a concrete event with square-root
reading `2 ^ 96` on a pool with equal decimals has forward price 1, whose
reciprocal 1 is representable at 53 bits, the quotient 1 is a valid
correctly rounded result, and the stored product is 1. -/
theorem uniswap_forward_mul_reverse_eq_one_amended_witness :
    (((handleUniswapEvent id 7 (some ⟨0, 0, 2 ^ 96, 0, 0⟩)
          ⟨"0xU", "USDC", "USDT", 6, 6⟩ emptyState).priceCache
          (pairKey "USDC" "USDT")).getLast?.map PriceInfo.price).getD 0 *
      1 = 1 :=
  uniswap_forward_mul_reverse_eq_one_amended id 7 ⟨"0xU", "USDC", "USDT", 6, 6⟩
    ⟨0, 0, 2 ^ 96, 0, 0⟩ emptyState 53 1 (by norm_num) (by decide)
    ⟨⟨1, 0, by norm_num, by norm_num⟩,
      fun _ => by norm_num [uniswapPrice]⟩
    ⟨1, 0, by norm_num, by norm_num [uniswapPrice]⟩

/-- Claim C9: an update from a pool with token0 A and token1 B writes only
the Forward field of the best-price entry for pair key A_B and only the
Reverse field of the entry for B_A; the Reverse field of A_B and the
Forward field of B_A are left unchanged. -/
theorem bestPrice_directional_frame (mlog : ℚ → ℚ) (now : ℤ)
    (pool : PoolConfig) (price : ℚ) (dexType : String) (st : CacheState)
    (hk : pairKey pool.token0 pool.token1 ≠ pairKey pool.token1 pool.token0) :
    ((updatePriceCache mlog now pool price dexType st).bestPriceCache
        (pairKey pool.token0 pool.token1)).reverse =
      (st.bestPriceCache (pairKey pool.token0 pool.token1)).reverse ∧
    ((updatePriceCache mlog now pool price dexType st).bestPriceCache
        (pairKey pool.token1 pool.token0)).forward =
      (st.bestPriceCache (pairKey pool.token1 pool.token0)).forward := by
  simp only [updatePriceCache]
  constructor
  · rw [if_neg hk]
    simp only [if_true]
    cases hbf : (st.bestPriceCache (pairKey pool.token0 pool.token1)).forward
    · simp [hbf]
    · simp only [hbf]
      split_ifs <;> rfl
  · simp only [if_true]
    rw [if_neg (Ne.symm hk)]
    cases hbr : (st.bestPriceCache (pairKey pool.token1 pool.token0)).reverse
    · simp [hbr]
    · simp only [hbr]
      split_ifs <;> rfl

/-- Witness for claim C9: a concrete update on pair USDC_WETH leaves the
Reverse field of USDC_WETH and the Forward field of WETH_USDC at their
previous (empty) values. -/
theorem bestPrice_directional_frame_witness :
    ((updatePriceCache id 7 ⟨"0xW", "USDC", "WETH", 6, 18⟩ 5 "uniswap"
        emptyState).bestPriceCache (pairKey "USDC" "WETH")).reverse =
      (emptyState.bestPriceCache (pairKey "USDC" "WETH")).reverse ∧
    ((updatePriceCache id 7 ⟨"0xW", "USDC", "WETH", 6, 18⟩ 5 "uniswap"
        emptyState).bestPriceCache (pairKey "WETH" "USDC")).forward =
      (emptyState.bestPriceCache (pairKey "WETH" "USDC")).forward :=
  bestPrice_directional_frame id 7 ⟨"0xW", "USDC", "WETH", 6, 18⟩ 5
    "uniswap" emptyState (by decide)
